/-
Verification of the generic-response extraction and coercion helpers of
thingpedia-api (lib/helpers/generic response utilities).

The JavaScript source is shallowly embedded: JSON-like values become the
inductive type `Value`, JS property access (which throws a TypeError on
`null`/`undefined` receivers) becomes `Except String Value`, and the
helper functions `splitpropchain`, `get`, `cast`, `getMixinArgs`,
`findMixinArg`, `parseGenericResponse` and `formatString` are translated
function by function.
-/
import Mathlib

namespace Thingpedia

/-- JavaScript numbers.  The claims under verification never exercise
fractional or overflow behaviour, so numbers are modelled as exact
rationals, with NaN represented separately (see `Value.vnan`). -/
abbrev JSNum := Rat

/-- A JSON-like JavaScript value, as received by the generic-response
helpers, extended with the wrapped builtin objects (`Date`,
`ThingTalk.Builtin.Currency` / `Entity` / `Location`) that `cast`
constructs.  `vdate v` models `new Date(v)` abstractly by remembering the
construction argument; the builtin wrappers remember their constructor
arguments.  Property layout of the wrappers is external to this
repository and never read back by the code under verification. -/
inductive Value : Type where
  | vundefined : Value
  | vnull : Value
  | vbool : Bool → Value
  | vnum : JSNum → Value
  | vnan : Value
  | vstr : String → Value
  | varr : List Value → Value
  | vobj : List (String × Value) → Value
  | vdate : Value → Value
  | vcurrency : Value → Value → Value
  | ventity : Value → Value → Value
  | vlocation : Value → Value → Value → Value

namespace Value

/-- First binding of a key in an object's field list (JS objects cannot
hold duplicate keys; assoc-list lookup takes the first). -/
def lookupField (fields : List (String × Value)) (k : String) : Option Value :=
  (fields.find? (fun p => p.1 = k)).map (fun p => p.2)

/-- JS property read `fields[k]`: the bound value, or `undefined`. -/
def objGetD (fields : List (String × Value)) (k : String) : Value :=
  (lookupField fields k).getD .vundefined

/-- JS property assignment `fields[k] = v`: overwrite the binding of an
already-present key in place (keys of a JS object are unique, and
assignment keeps the key's original insertion position), otherwise
append a new binding at the end. -/
def setField : List (String × Value) → String → Value →
    List (String × Value)
  | [], k, v => [(k, v)]
  | (k0, v0) :: rest, k, v =>
    if k0 = k then (k, v) :: rest else (k0, v0) :: setField rest k v

/-- Array / string indexing by a property-name string: JS resolves `a[s]`
positionally only when `s` is the canonical decimal form of an index. -/
def indexOf (name : String) : Option Nat :=
  match name.toNat? with
  | some i => if name = toString i then some i else none
  | none => none

/-- JS property access `v[name]`.  Throws (models a `TypeError`) exactly
when the receiver is `null` or `undefined`; any other receiver yields a
value, with `undefined` for absent properties.  Inherited prototype
methods of primitives and of the builtin wrappers are not modelled: the
code under verification never reads them. -/
def getProp (v : Value) (name : String) : Except String Value :=
  match v with
  | .vundefined => .error "TypeError: cannot read properties of undefined"
  | .vnull => .error "TypeError: cannot read properties of null"
  | .vobj fields => .ok (objGetD fields name)
  | .varr xs =>
    .ok (if name = "length" then .vnum xs.length else
      match indexOf name with
      | some i => xs.getD i .vundefined
      | none => .vundefined)
  | .vstr s =>
    .ok (if name = "length" then .vnum s.length else
      match indexOf name with
      | some i =>
        match s.data.get? i with
        | some c => .vstr (String.mk [c])
        | none => .vundefined
      | none => .vundefined)
  | _ => .ok .vundefined

/-- Own-property test on an object's field list. -/
def hasField (fields : List (String × Value)) (k : String) : Bool :=
  fields.any (fun p => p.1 = k)

/-- `Object.prototype.hasOwnProperty.call(v, name)`: throws on `null` and
`undefined` receivers (they cannot be converted to objects), reports own
properties of objects, arrays and strings, and is `false` on the other
primitives and wrappers. -/
def hasOwnProp (v : Value) (name : String) : Except String Bool :=
  match v with
  | .vundefined => .error "TypeError: cannot convert undefined to object"
  | .vnull => .error "TypeError: cannot convert null to object"
  | .vobj fields => .ok (hasField fields name)
  | .varr xs =>
    .ok (name = "length" ||
      match indexOf name with
      | some i => decide (i < xs.length)
      | none => false)
  | .vstr s =>
    .ok (name = "length" ||
      match indexOf name with
      | some i => decide (i < s.length)
      | none => false)
  | _ => .ok false

end Value

/--
`splitpropchain(propchainstring)`: split a textual chain of properties
separated with `.` into the list of property names, handling `\` as the
escape character.

The source scans the string with the regex `/[\\.]/g`, copying the text
between matches into the current segment buffer (clearing a pending
escape flag, which drops the backslash in front of an ordinary escaped
character), and dispatching on each matched special character; that loop
is exactly a single left-to-right pass over the characters, which is how
it is rendered here (`splitChainAux` works on segment buffers as
character lists, in source order).
-/
def splitChainAux : List Char → Bool → List Char → List (List Char)
  | [], _, buffer => [buffer]
  | c :: rest, escape, buffer =>
    if c = '\\' then
      if escape then splitChainAux rest false (buffer ++ ['\\'])
      else splitChainAux rest true buffer
    else if c = '.' then
      if escape then splitChainAux rest false (buffer ++ ['.'])
      else buffer :: splitChainAux rest false []
    else splitChainAux rest false (buffer ++ [c])

/-- The chain of property names denoted by a dotted, backslash-escaped
path string (`splitpropchain` in the source). -/
def splitpropchain (s : String) : List String :=
  (splitChainAux s.data false []).map (fun cs => String.mk cs)

/-- The iterated property walk `for (prop of chain) obj = obj[prop]`
(a thrown TypeError aborts the walk). -/
def getChain : Value → List String → Except String Value
  | obj, [] => .ok obj
  | obj, prop :: rest =>
    match Value.getProp obj prop with
    | .ok next => getChain next rest
    | .error e => .error e

/-- `get(obj, propchain)` from the source: parse the chain and walk it. -/
def get (obj : Value) (propchain : String) : Except String Value :=
  getChain obj (splitpropchain propchain)

/-- The declared semantic type of an argument, as tested by the boolean
flags `isArray`, `isDate`, `isNumber`, `isMeasure`, `isCurrency`,
`isEntity`, `isLocation` in the source.  `other` stands for any further
declared type whose flags are all false (the source's type vocabulary is
open; such types reach the final pass-through). -/
inductive SType : Type where
  | string | boolean | number | measure | date | currency | entity | location
  | array : SType → SType
  | other
  deriving DecidableEq, Repr

/-- The whitespace characters matched by the regex class `\s` (restricted
to the ASCII ones; the claims only exercise plain spaces). -/
def isJSWhitespace (c : Char) : Bool :=
  c = ' ' || c = '\t' || c = '\n' || c = '\r'

/-- Numeric value of a run of decimal digits. -/
def digitsVal (ds : List Char) : Nat :=
  ds.foldl (fun acc c => acc * 10 + (c.toNat - 48)) 0

/-- JavaScript's `parseFloat`: skip leading whitespace, then read an
optional sign, integer digits, an optional fraction and an optional
exponent, stopping at the first character that does not fit; `NaN` when
no digits were read.  (The special literal `Infinity` is not modelled:
the code under verification never feeds it in.)  Decimal notation is
exact here because numbers are rationals. -/
def parseFloatJS (s : String) : Value :=
  let cs0 := s.data.dropWhile isJSWhitespace
  let sign : Rat := match cs0 with
    | '-' :: _ => -1
    | _ => 1
  let cs1 := match cs0 with
    | '-' :: rest => rest
    | '+' :: rest => rest
    | _ => cs0
  let intDigits := cs1.takeWhile Char.isDigit
  let cs2 := cs1.dropWhile Char.isDigit
  let fracDigits := match cs2 with
    | '.' :: rest => rest.takeWhile Char.isDigit
    | _ => []
  let cs3 := match cs2 with
    | '.' :: rest => rest.dropWhile Char.isDigit
    | _ => cs2
  if intDigits = [] ∧ fracDigits = [] then .vnan
  else
    let mantissa : Rat :=
      (digitsVal intDigits : Rat) + (digitsVal fracDigits : Rat) / ((10 : Rat) ^ fracDigits.length)
    let exp : Int := match cs3 with
      | c :: rest =>
        if c = 'e' || c = 'E' then
          let esign : Int := match rest with
            | '-' :: _ => -1
            | _ => 1
          let rest2 := match rest with
            | '-' :: r => r
            | '+' :: r => r
            | _ => rest
          let eds := rest2.takeWhile Char.isDigit
          if eds = [] then 0 else esign * (digitsVal eds : Int)
        else 0
      | [] => 0
    .vnum (sign * mantissa * (10 : Rat) ^ exp)

theorem dropWhile_length_le {α : Type} (p : α → Bool) :
    (l : List α) → (l.dropWhile p).length ≤ l.length
  | [] => Nat.le_refl _
  | x :: xs => by
    simp only [List.dropWhile_cons]
    split
    · exact Nat.le_trans (dropWhile_length_le p xs) (Nat.le_succ _)
    · exact Nat.le_refl _

/-- `value.split(/,\s*/g)`: each separator is a comma together with the
run of whitespace that follows it. -/
def splitCommaAux : List Char → List Char → List (List Char)
  | [], buf => [buf]
  | c :: rest, buf =>
    if c = ',' then buf :: splitCommaAux (rest.dropWhile isJSWhitespace) []
    else splitCommaAux rest (buf ++ [c])
termination_by cs _ => cs.length
decreasing_by
  · simp only [List.length_cons]
    exact Nat.lt_succ_of_le (dropWhile_length_le _ _)
  · simp

def splitCommaWS (s : String) : List String :=
  (splitCommaAux s.data []).map (fun cs => String.mk cs)

/-- `list.map(f)` for a function that can throw, with JS semantics:
the first exception aborts the whole map. -/
def mapExcept {α β : Type} (f : α → Except String β) :
    List α → Except String (List β)
  | [] => .ok []
  | x :: xs =>
    match f x with
    | .error e => .error e
    | .ok y =>
      match mapExcept f xs with
      | .error e => .error e
      | .ok ys => .ok (y :: ys)

/-- `new ThingTalk.Builtin.Location(value[latKey], value[lonKey],
value.display)`: the geo-point construction shared by the three
location arms of `cast` (property reads can throw on `null` and
`undefined` receivers). -/
def buildLocation (value : Value) (latKey lonKey : String) :
    Except String Value :=
  match Value.getProp value latKey with
  | .error e => .error e
  | .ok la =>
    match Value.getProp value lonKey with
    | .error e => .error e
    | .ok lo =>
      match Value.getProp value "display" with
      | .error e => .error e
      | .ok d => .ok (.vlocation la lo d)

/-- `cast(value, type)` from the source: the type-directed coercion
chain, tried in source order (array+string, array, date, number/measure
+string, currency+number, currency+string, currency, entity+string,
entity, location, default pass-through).  JS operations that can throw
(`value.map` on a non-array, property access on `null`/`undefined`)
surface as `Except.error`. -/
def cast (value : Value) (type : SType) : Except String Value :=
  match type with
  | .array elem =>
    match value with
    | .vstr s => do
      let ws ← mapExcept (fun p => cast (Value.vstr p) elem) (splitCommaWS s)
      .ok (.varr ws)
    | .varr xs => do
      let ws ← mapExcept (fun v => cast v elem) xs
      .ok (.varr ws)
    | _ => .error "TypeError: value.map is not a function"
  | .date => .ok (.vdate value)
  | .number | .measure =>
    match value with
    | .vstr s => .ok (parseFloatJS s)
    | _ => .ok value
  | .currency =>
    match value with
    | .vnum q => .ok (.vcurrency (.vnum q) (.vstr "usd"))
    | .vnan => .ok (.vcurrency .vnan (.vstr "usd"))
    | .vstr s => .ok (.vcurrency (parseFloatJS s) (.vstr "usd"))
    | v =>
      match Value.getProp v "value" with
      | .error e => .error e
      | .ok val =>
        match Value.getProp v "unit" with
        | .error e => .error e
        | .ok unit => .ok (.vcurrency val unit)
  | .entity =>
    match value with
    | .vstr s => .ok (.ventity (.vstr s) .vnull)
    | v =>
      match Value.getProp v "value" with
      | .error e => .error e
      | .ok val =>
        match Value.getProp v "display" with
        | .error e => .error e
        | .ok d => .ok (.ventity val d)
  | .location =>
    match Value.hasOwnProp value "x" with
    | .error e => .error e
    | .ok hx =>
      match Value.hasOwnProp value "y" with
      | .error e => .error e
      | .ok hy =>
        if hx && hy then buildLocation value "y" "x"
        else
          match Value.hasOwnProp value "latitude" with
          | .error e => .error e
          | .ok hlat =>
            match Value.hasOwnProp value "longitude" with
            | .error e => .error e
            | .ok hlon =>
              if hlat && hlon then buildLocation value "latitude" "longitude"
              else buildLocation value "lat" "lon"
  | .string | .boolean | .other => .ok value

/-- One argument descriptor of a function signature: `sig.getArgument`
resolves each name of `sig.args` to such a descriptor; `json_key` is
the value of the argument's `json_key` annotation (`.toJS()` applied),
when present. -/
structure Argument where
  name : String
  is_input : Bool
  type : SType
  json_key : Option String

/-- A function signature: the ordered argument descriptors (the source
iterates the names `sig.args` and resolves each with
`sig.getArgument`), and the function-level `json_key` annotation. -/
structure FunctionDef where
  args : List Argument
  json_key : Option String

/-- The body of `extractOne` in the source: the loop over `sig.args`,
threading the record built so far (`extracted`). -/
def extractArgs (result : Value) : List Argument → List (String × Value) →
    Except String (List (String × Value))
  | [], extracted => .ok extracted
  | arg :: rest, extracted =>
    if arg.is_input then extractArgs result rest extracted
    else
      match (match arg.json_key with
             | some k => get result k
             | none => Value.getProp result arg.name) with
      | .error e => .error e
      | .ok raw =>
        match cast raw arg.type with
        | .error e => .error e
        | .ok v => extractArgs result rest (Value.setField extracted arg.name v)

/-- `extractOne(result)` from `parseGenericResponse`. -/
def extractOne (sig : FunctionDef) (result : Value) :
    Except String (List (String × Value)) :=
  extractArgs result sig.args []

/-- `parseGenericResponse(json, sig)` from the source: unwrap the
function-level `json_key` envelope if declared, then map `extractOne`
over the elements if the payload is an array, else extract the single
object. -/
def parseGenericResponse (json : Value) (sig : FunctionDef) :
    Except String (List (List (String × Value))) :=
  match (match sig.json_key with
         | some k => get json k
         | none => .ok json) with
  | .error e => .error e
  | .ok payload =>
    match payload with
    | .varr xs => mapExcept (extractOne sig) xs
    | j =>
      match extractOne sig j with
      | .error e => .error e
      | .ok r => .ok [r]

/-- One `in_param` of a mixin invocation; `value` is the native value
the source obtains as `in_param.value.toJS()`. -/
structure InParam where
  name : String
  value : Value

/-- A mixin invocation block: the ordered `in_params` list. -/
structure Mixin where
  in_params : List InParam

/-- `getMixinArgs(mixin)`: evaluate every pair into one mapping; the JS
object assignment makes later duplicate names overwrite earlier ones. -/
def getMixinArgs (mixin : Mixin) : List (String × Value) :=
  mixin.in_params.foldl (fun args p => Value.setField args p.name p.value) []

/-- The loop of `findMixinArg`: first pair matching the name wins. -/
def findMixinAux : List InParam → String → Value
  | [], _ => .vundefined
  | p :: rest, arg => if p.name = arg then p.value else findMixinAux rest arg

/-- `findMixinArg(mixin, arg)` from the source (returns `undefined` when
no pair matches). -/
def findMixinArg (mixin : Mixin) (arg : String) : Value :=
  findMixinAux mixin.in_params arg

/-- The character `{` (written via its code point so that string and
character literals in this file stay brace-free). -/
def lbrace : Char := Char.ofNat 123

/-- The character `}` (written via its code point). -/
def rbrace : Char := Char.ofNat 125

/-- Modelled from the spec: the scanner of the external `string-interp`
library's `interpolate`, which is not part of this repository.  Per the
spec's Placeholder Formatter contract, it scans the template for
placeholders of shape dollar-brace-name-brace, resolves each name
through the supplied callback, and — with `failIfMissing` false —
tolerates a missing substitution by leaving the original placeholder
token in place rather than throwing.  The second list argument is
`none` in plain-text state, and `some acc` while the characters of a
placeholder name are being accumulated. -/
def interpScan (resolve : String → Option String) (failIfMissing : Bool) :
    List Char → Option (List Char) → Except String String
  | [], none => .ok ""
  | [], some acc => .ok (String.mk ('$' :: lbrace :: acc))
  | c :: rest, some acc =>
    if c = rbrace then
      match resolve (String.mk acc) with
      | some v => do
        let t ← interpScan resolve failIfMissing rest none
        .ok (v ++ t)
      | none =>
        if failIfMissing then
          .error (String.append "missing parameter " (String.mk acc))
        else do
          let t ← interpScan resolve failIfMissing rest none
          .ok (String.mk ('$' :: lbrace :: (acc ++ [rbrace])) ++ t)
    else interpScan resolve failIfMissing rest (some (acc ++ [c]))
  | [c], none => .ok (String.mk [c])
  | c1 :: c2 :: rest, none =>
    if c1 = '$' && c2 = lbrace then
      interpScan resolve failIfMissing rest (some [])
    else do
      let t ← interpScan resolve failIfMissing (c2 :: rest) none
      .ok (String.mk [c1] ++ t)

/-- Modelled from the spec: `interpolate(template, resolver, options)`
of the external `string-interp` package, at the options the source
passes (`failIfMissing` explicit). -/
def interpolate (s : String) (resolve : String → Option String)
    (failIfMissing : Bool) : Except String String :=
  interpScan resolve failIfMissing s.data none

/-- Lookup in an interpolation scope (spec: a read-only name-to-string
mapping); an absent name reads as JS `undefined`, i.e. `none`. -/
def lookupParam (m : List (String × String)) (k : String) : Option String :=
  (m.find? (fun p => p.1 = k)).map (fun p => p.2)

/-- JS truthiness of a scope lookup result: `undefined` and the empty
string are falsy, every other string is truthy. -/
def truthyStr : Option String → Bool
  | none => false
  | some s => if s = "" then false else true

/-- The resolver closure `formatString` passes to `interpolate`:
`functionParams ? functionParams[param] || deviceParams[param]
: deviceParams[param]`. -/
def resolveParam (deviceParams : List (String × String))
    (functionParams : Option (List (String × String))) (param : String) :
    Option String :=
  match functionParams with
  | some fp =>
    let v := lookupParam fp param
    if truthyStr v then v else lookupParam deviceParams param
  | none => lookupParam deviceParams param

/-- `formatString(url, deviceParams, functionParams)` from the source:
interpolate the template with the two-scope resolver and
`failIfMissing: false`. -/
def formatString (url : String) (deviceParams : List (String × String))
    (functionParams : Option (List (String × String))) :
    Except String String :=
  interpolate url (resolveParam deviceParams functionParams) false

/-! Derived predicates and concrete fixtures used by the statements. -/

/-- Whether a value is `null` or `undefined` (the receivers on which JS
property access throws). -/
def isNullish : Value → Bool
  | .vundefined => true
  | .vnull => true
  | _ => false

/-- Whether the property walk reaches `null` or `undefined` while
segments remain — the exact condition under which `getChain` throws.
(The error arm of the inner match is unreachable: `getProp` only fails
on nullish receivers.) -/
def hitsNullish : Value → List String → Bool
  | _, [] => false
  | v, p :: rest =>
    if isNullish v then true
    else
      match Value.getProp v p with
      | .ok w => hitsNullish w rest
      | .error _ => true

/-- The (value, type) pairs on which no guard of the `cast` dispatch
chain fires, so that the final pass-through arm returns the raw value
unchanged. -/
def castFallsThrough (value : Value) (type : SType) : Bool :=
  match type with
  | .array _ | .date | .currency | .entity | .location => false
  | .number | .measure =>
    match value with
    | .vstr _ => false
    | _ => true
  | .string | .boolean | .other => true

/-- The names of the output-direction arguments of a signature, in
declaration order. -/
def outNames (args : List Argument) : List String :=
  (args.filter (fun a => !a.is_input)).map (fun a => a.name)

/-- The key list of an extracted record. -/
def keys (fields : List (String × Value)) : List String :=
  fields.map (fun p => p.1)

/-- Character-list form of joining segments with `.`. -/
def joinChars : List (List Char) → List Char
  | [] => []
  | [s] => s
  | s :: rest => s ++ '.' :: joinChars rest

/-- Join path segments with the literal separator `.` (the joining side
of the round-trip property). -/
def joinsegs : List String → String
  | [] => ""
  | [s] => s
  | s :: rest => s ++ "." ++ joinsegs rest

/-- The nested test structure `{a: {b: 5}}`. -/
def nestedExample : Value := .vobj [("a", .vobj [("b", .vnum 5)])]

/-- A signature with the single output argument `status : String`. -/
def statusSig : FunctionDef :=
  ⟨[⟨"status", false, .string, none⟩], none⟩

/-- A signature with the single output argument `xs : Array(String)`. -/
def arraySig : FunctionDef :=
  ⟨[⟨"xs", false, .array .string, none⟩], none⟩

/-- The template string holding the single placeholder `x`. -/
def xTemplate : String := "$\x7bx\x7d"

/-- The template string holding the single placeholder `y`. -/
def yTemplate : String := "$\x7by\x7d"

/-- The mixin block `[(a, 1), (a, 2)]`. -/
def dupMixin : Mixin := ⟨[⟨"a", .vnum 1⟩, ⟨"a", .vnum 2⟩]⟩

/-! Helper lemmas shared by the claim theorems. -/

theorem getChain_isOk (l : List String) :
    ∀ v : Value, (getChain v l).isOk = !(hitsNullish v l) := by
  induction l with
  | nil => intro v; rfl
  | cons p rest ih =>
    intro v
    cases v <;> first | rfl | exact ih _

theorem cast_passthrough (v : Value) (t : SType)
    (h : castFallsThrough v t = true) : cast v t = .ok v := by
  cases t <;> cases v <;> first | rfl | simp [castFallsThrough] at h

/-! Claim C1: totality of the Value Getter. -/

/-- C1 (counterexample): the claim that `get` never raises is false —
on the nested value `{a:{b:5}}` and the path `a.c.d`, the step `a.c`
yields `undefined` and the remaining segment `d` is then read off
`undefined`, which throws a TypeError. -/
theorem c1_get_raises : get nestedExample "a.c.d"
    = .error "TypeError: cannot read properties of undefined" := rfl

/-- C1 (amended): `get` completes without raising exactly when the walk
never reaches `null`/`undefined` with segments remaining; reading a
property off any other non-indexable value yields `undefined` rather
than throwing, so `get({a:{b:5}}, "a.b") = 5`,
`get({a:{b:5}}, "a.c") = undefined` and
`get({a:{b:5}}, "a.b.c") = undefined` all hold as stated. -/
theorem c1_get_totality :
    (∀ (obj : Value) (propchain : String),
      (get obj propchain).isOk = !(hitsNullish obj (splitpropchain propchain))) ∧
    get nestedExample "a.b" = .ok (.vnum 5) ∧
    get nestedExample "a.c" = .ok .vundefined ∧
    get nestedExample "a.b.c" = .ok .vundefined :=
  ⟨fun obj propchain => getChain_isOk (splitpropchain propchain) obj,
   rfl, rfl, rfl⟩

/-! Claim C2: totality and pass-through default of the coercion engine. -/

/-- C2 (counterexample): `cast` is not total, and an unlisted (type,
value) combination does not always pass through unchanged: an `ArrayOf`
type paired with `undefined` reaches `value.map`, which throws. -/
theorem c2_cast_raises : cast .vundefined (.array .string)
    = .error "TypeError: value.map is not a function" := rfl

/-- C2 (amended): the pass-through default applies exactly to the
combinations on which no guard of the dispatch chain fires — declared
types other than ArrayOf/Date/Currency/Entity/Location, excluding a
Number/Measure type paired with a string.  For guarded types with
unexpected value shapes, `cast` instead builds wrapped values from
possibly-missing fields, and raises on `undefined`/`null` (and on any
non-array, non-string value for ArrayOf). -/
theorem c2_cast_passthrough (v : Value) (t : SType)
    (h : castFallsThrough v t = true) : cast v t = .ok v :=
  cast_passthrough v t h

/-- C2 (witness): a boolean passed at a Boolean declared type falls
through the chain unchanged. -/
theorem c2_cast_passthrough_witness :
    cast (.vbool true) .boolean = .ok (.vbool true) :=
  c2_cast_passthrough (.vbool true) .boolean rfl

/-! Claim C3: extraction of a missing raw field. -/

/-- C3 (counterexample): a missing raw field does not coerce to
`undefined` for every declared type — with the single output argument
`xs : Array(String)` and the element `{}`, the absent field gives
`cast(undefined, ArrayOf(String))`, which calls `undefined.map` and
throws, so the whole extraction fails. -/
theorem c3_extract_raises : parseGenericResponse (.vobj []) arraySig
    = .error "TypeError: value.map is not a function" := rfl

/-- C3 (amended): for an output argument without a `json_key`
annotation whose raw field is absent from the element, the record maps
the argument's name to `undefined` exactly when the declared type lets
`undefined` fall through the coercion chain (primitive, boolean,
number/measure or unknown types) — not for ArrayOf, Date, Currency,
Entity or Location. -/
theorem c3_missing_field (arg : Argument) (element : Value)
    (hin : arg.is_input = false) (hkey : arg.json_key = none)
    (hmiss : Value.getProp element arg.name = .ok .vundefined)
    (hft : castFallsThrough .vundefined arg.type = true) :
    extractOne ⟨[arg], none⟩ element = .ok [(arg.name, .vundefined)] := by
  simp only [extractOne, extractArgs, hin, hkey, hmiss, Bool.false_eq_true,
    if_false, cast_passthrough _ _ hft]
  rfl

/-- C3 (witness): the missing `status : String` field of the element
`{}` extracts to `undefined`. -/
theorem c3_missing_field_witness :
    extractOne ⟨[⟨"status", false, SType.string, none⟩], none⟩ (.vobj [])
      = .ok [("status", .vundefined)] :=
  c3_missing_field ⟨"status", false, .string, none⟩ (.vobj []) rfl rfl rfl rfl

/-! Claim C4: shape invariant of the Response Extractor. -/

theorem setField_of_not_mem (k : String) (v : Value) :
    ∀ fields : List (String × Value), ¬ k ∈ keys fields →
      Value.setField fields k v = fields ++ [(k, v)] := by
  intro fields
  induction fields with
  | nil => intro _; rfl
  | cons head rest ih =>
    intro h
    obtain ⟨k0, v0⟩ := head
    simp only [keys, List.map_cons, List.mem_cons, not_or] at h
    simp only [Value.setField]
    rw [if_neg (fun hh : k0 = k => h.1 hh.symm), ih h.2]
    rfl

theorem mapExcept_ok {α β : Type} (f : α → Except String β) :
    ∀ (xs : List α) (ys : List β), mapExcept f xs = .ok ys →
      ys.length = xs.length ∧ ∀ y ∈ ys, ∃ x ∈ xs, f x = .ok y := by
  intro xs
  induction xs with
  | nil =>
    intro ys h
    cases h
    exact ⟨rfl, by simp⟩
  | cons x xs ih =>
    intro ys h
    simp only [mapExcept] at h
    cases hfx : f x with
    | error e => rw [hfx] at h; cases h
    | ok y =>
      rw [hfx] at h
      cases hrest : mapExcept f xs with
      | error e => rw [hrest] at h; cases h
      | ok tail =>
        rw [hrest] at h
        cases h
        obtain ⟨hlen, hmem⟩ := ih tail hrest
        refine ⟨by simp [hlen], ?_⟩
        intro z hz
        rcases List.mem_cons.mp hz with hz | hz
        · exact ⟨x, List.mem_cons_self x xs, by rw [← hz] at hfx; exact hfx⟩
        · obtain ⟨x0, hx0, hfx0⟩ := hmem z hz
          exact ⟨x0, List.mem_cons_of_mem x hx0, hfx0⟩

theorem extractArgs_keys :
    ∀ (args : List Argument) (result : Value) (acc r : List (String × Value)),
      (keys acc ++ outNames args).Nodup →
      extractArgs result args acc = .ok r →
      keys r = keys acc ++ outNames args := by
  intro args
  induction args with
  | nil =>
    intro result acc r _ h
    cases h
    simp [outNames]
  | cons arg rest ih =>
    intro result acc r hnd h
    by_cases hin : arg.is_input
    · have houtn : outNames (arg :: rest) = outNames rest := by
        simp [outNames, hin]
      simp only [extractArgs, hin, if_true] at h
      rw [houtn] at hnd ⊢
      exact ih result acc r hnd h
    · have houtn : outNames (arg :: rest) = arg.name :: outNames rest := by
        simp [outNames, hin]
      simp only [extractArgs, hin, Bool.false_eq_true, if_false] at h
      cases hraw : (match arg.json_key with
                    | some k => get result k
                    | none => Value.getProp result arg.name) with
      | error e => rw [hraw] at h; cases h
      | ok raw =>
        rw [hraw] at h
        dsimp only at h
        cases hcast : cast raw arg.type with
        | error e => rw [hcast] at h; cases h
        | ok v =>
          rw [hcast] at h
          dsimp only at h
          rw [houtn] at hnd
          rw [List.append_cons] at hnd
          have hne : ¬ arg.name ∈ keys acc := by
            intro hmem
            rcases List.nodup_append.mp hnd with ⟨hnd1, _, _⟩
            rcases List.nodup_append.mp hnd1 with ⟨_, _, hdisj⟩
            exact hdisj hmem (List.mem_singleton_self _)
          rw [setField_of_not_mem _ _ _ hne] at h
          have hk : keys (acc ++ [(arg.name, v)]) = keys acc ++ [arg.name] := by
            simp [keys]
          have hnd2 : (keys (acc ++ [(arg.name, v)]) ++ outNames rest).Nodup := by
            rw [hk]; exact hnd
          have hkeys := ih result (acc ++ [(arg.name, v)]) r hnd2 h
          rw [hkeys, hk, houtn]
          simp

/-- C4 (counterexample): a one-element sequence whose element misses
the `xs : Array(String)` output field makes `extract` throw, returning
no records at all instead of one record with the output key. -/
theorem c4_extract_raises : parseGenericResponse (.varr [.vobj []]) arraySig
    = .error "TypeError: value.map is not a function" := rfl

/-- C4 (amended): whenever extraction completes without a coercion or
path-walk error (and the signature has no whole-response envelope
annotation and distinct output names), an N-element sequence yields
exactly N records whose key list is exactly the output-argument names;
and a non-sequence response is treated as a single-element sequence, so
`extract({status:"ok"})` with the single output `status : String`
yields `[{status:"ok"}]` unconditionally. -/
theorem c4_extract_shape :
    (∀ (sig : FunctionDef) (xs : List Value)
        (out : List (List (String × Value))),
      sig.json_key = none →
      (outNames sig.args).Nodup →
      parseGenericResponse (.varr xs) sig = .ok out →
      out.length = xs.length ∧ ∀ r ∈ out, keys r = outNames sig.args) ∧
    parseGenericResponse (.vobj [("status", .vstr "ok")]) statusSig
      = .ok [[("status", .vstr "ok")]] := by
  constructor
  · intro sig xs out hkey hnd h
    simp only [parseGenericResponse, hkey] at h
    obtain ⟨hlen, hmem⟩ := mapExcept_ok _ xs out h
    refine ⟨hlen, ?_⟩
    intro r hr
    obtain ⟨x, _, hx⟩ := hmem r hr
    simp only [extractOne] at hx
    have := extractArgs_keys sig.args x [] r (by simpa [keys] using hnd) hx
    simpa [keys] using this
  · rfl

/-- C4 (witness): the single-object wrapping case at the concrete
status example. -/
theorem c4_extract_shape_witness :
    ([[("status", Value.vstr "ok")]] :
        List (List (String × Value))).length
      = [Value.vobj [("status", Value.vstr "ok")]].length ∧
    ∀ r ∈ [[("status", Value.vstr "ok")]], keys r = outNames statusSig.args :=
  c4_extract_shape.1 statusSig [.vobj [("status", .vstr "ok")]]
    [[("status", .vstr "ok")]] rfl (by decide) rfl

/-! Claims C5 and C6: the Property-Path scanner. -/

theorem splitChainAux_ne_nil :
    ∀ (cs : List Char) (esc : Bool) (buf : List Char),
      splitChainAux cs esc buf ≠ [] := by
  intro cs
  induction cs with
  | nil => intro esc buf; simp [splitChainAux]
  | cons c rest ih =>
    intro esc buf
    simp only [splitChainAux]
    split
    · split
      · exact ih _ _
      · exact ih _ _
    · split
      · split
        · exact ih _ _
        · simp
      · exact ih _ _

theorem splitChainAux_plain :
    ∀ (cs rest buf : List Char),
      (∀ c ∈ cs, c ≠ '.' ∧ c ≠ '\\') →
      splitChainAux (cs ++ rest) false buf
        = splitChainAux rest false (buf ++ cs) := by
  intro cs
  induction cs with
  | nil => intro rest buf _; simp
  | cons c cs ih =>
    intro rest buf h
    have hc := h c (List.mem_cons_self c cs)
    have hcs : ∀ x ∈ cs, x ≠ '.' ∧ x ≠ '\\' :=
      fun x hx => h x (List.mem_cons_of_mem c hx)
    simp only [List.cons_append, splitChainAux, if_neg hc.2, if_neg hc.1]
    show splitChainAux (cs ++ rest) false (buf ++ [c])
      = splitChainAux rest false (buf ++ c :: cs)
    rw [ih rest (buf ++ [c]) hcs]
    simp

theorem splitChainAux_dot (t buf : List Char) :
    splitChainAux ('.' :: t) false buf = buf :: splitChainAux t false [] := rfl

theorem splitChainAux_join :
    ∀ segs : List (List Char), segs ≠ [] →
      (∀ seg ∈ segs, ∀ c ∈ seg, c ≠ '.' ∧ c ≠ '\\') →
      splitChainAux (joinChars segs) false [] = segs := by
  intro segs
  induction segs with
  | nil => intro h; exact absurd rfl h
  | cons s rest ih =>
    intro _ h
    have hs := h s (List.mem_cons_self s rest)
    cases rest with
    | nil =>
      calc splitChainAux (joinChars [s]) false []
          = splitChainAux (s ++ []) false [] := by simp [joinChars]
        _ = splitChainAux [] false ([] ++ s) := splitChainAux_plain s [] [] hs
        _ = [s] := by simp [splitChainAux]
    | cons s2 rest2 =>
      have hrest : ∀ seg ∈ s2 :: rest2, ∀ c ∈ seg, c ≠ '.' ∧ c ≠ '\\' :=
        fun seg hseg => h seg (List.mem_cons_of_mem s hseg)
      simp only [joinChars]
      rw [splitChainAux_plain s ('.' :: joinChars (s2 :: rest2)) [] hs,
        List.nil_append, splitChainAux_dot,
        ih (by simp) hrest]

theorem string_mk_data : ∀ s : String, String.mk s.data = s := by
  intro s
  cases s
  rfl

theorem joinsegs_data : ∀ segs : List String,
    (joinsegs segs).data = joinChars (segs.map (fun s => s.data)) := by
  intro segs
  induction segs with
  | nil => rfl
  | cons s rest ih =>
    cases rest with
    | nil => rfl
    | cons s2 rest2 =>
      simp only [joinsegs, joinChars, List.map_cons]
      rw [String.data_append, String.data_append, ih]
      simp [List.map_cons]

/-- C5: for every non-empty sequence of segments containing neither a
literal dot nor a backslash, parsing the dot-joined string yields back
exactly the original segments. -/
theorem c5_roundtrip (segs : List String) (hne : segs ≠ [])
    (hplain : ∀ s ∈ segs, ∀ c ∈ s.data, c ≠ '.' ∧ c ≠ '\\') :
    splitpropchain (joinsegs segs) = segs := by
  unfold splitpropchain
  rw [joinsegs_data]
  rw [splitChainAux_join (segs.map (fun s => s.data))
    (by simpa using hne)
    (by intro seg hseg c hc
        obtain ⟨s, hsmem, hsd⟩ := List.mem_map.mp hseg
        exact hplain s hsmem c (hsd ▸ hc))]
  rw [List.map_map]
  have hcomp : (String.mk ∘ fun s : String => s.data) = id := by
    funext s
    exact string_mk_data s
  rw [hcomp, List.map_id]

/-- C5 (witness): joining and re-parsing the segments `a`, `b`. -/
theorem c5_roundtrip_witness :
    splitpropchain (joinsegs ["a", "b"]) = ["a", "b"] :=
  c5_roundtrip ["a", "b"] (by decide) (by decide)

/-- C6: backslash escapes the following character, the final (possibly
empty) buffer is always appended, and the result is never empty — the
escaped-dot input parses to `a.b`/`c`, the doubled backslash parses to
the single segment with a literal backslash, a lone trailing backslash
is consumed with no visible effect, and every input (the empty string
included) yields a non-empty sequence. -/
theorem c6_escape_fidelity :
    splitpropchain "a\\.b.c" = ["a.b", "c"] ∧
    splitpropchain "a\\\\b" = ["a\\b"] ∧
    splitpropchain "x\\" = ["x"] ∧
    ∀ s : String, splitpropchain s ≠ [] := by
  refine ⟨by decide, by decide, by decide, ?_⟩
  intro s h
  unfold splitpropchain at h
  rw [List.map_eq_nil_iff] at h
  exact splitChainAux_ne_nil _ _ _ h

/-! Claim C7: the Location coercion and its axis swap. -/

/-- C7: a map with own properties `x` and `y` coerces to the geo-point
(latitude = y, longitude = x) — the axis order is swapped — taking
precedence over `latitude`/`longitude`, which takes precedence over the
`lat`/`lon` fallback; `{x:10, y:20}` gives latitude 20, longitude 10,
and `{latitude:20, longitude:10}` gives the same pair directly. -/
theorem c7_location_swap :
    (∀ fields : List (String × Value),
      Value.hasField fields "x" = true → Value.hasField fields "y" = true →
      cast (.vobj fields) .location
        = .ok (.vlocation (Value.objGetD fields "y") (Value.objGetD fields "x")
            (Value.objGetD fields "display"))) ∧
    (∀ fields : List (String × Value),
      (Value.hasField fields "x" && Value.hasField fields "y") = false →
      Value.hasField fields "latitude" = true →
      Value.hasField fields "longitude" = true →
      cast (.vobj fields) .location
        = .ok (.vlocation (Value.objGetD fields "latitude")
            (Value.objGetD fields "longitude") (Value.objGetD fields "display"))) ∧
    (∀ fields : List (String × Value),
      (Value.hasField fields "x" && Value.hasField fields "y") = false →
      (Value.hasField fields "latitude" && Value.hasField fields "longitude")
        = false →
      cast (.vobj fields) .location
        = .ok (.vlocation (Value.objGetD fields "lat") (Value.objGetD fields "lon")
            (Value.objGetD fields "display"))) ∧
    cast (.vobj [("x", .vnum 10), ("y", .vnum 20)]) .location
      = .ok (.vlocation (.vnum 20) (.vnum 10) .vundefined) ∧
    cast (.vobj [("latitude", .vnum 20), ("longitude", .vnum 10)]) .location
      = .ok (.vlocation (.vnum 20) (.vnum 10) .vundefined) := by
  refine ⟨?_, ?_, ?_, rfl, rfl⟩
  · intro fields hx hy
    simp [cast, Value.hasOwnProp, hx, hy, buildLocation, Value.getProp]
  · intro fields hxy hlat hlon
    simp [cast, Value.hasOwnProp, hxy, hlat, hlon, buildLocation, Value.getProp]
  · intro fields hxy hll
    simp [cast, Value.hasOwnProp, hxy, hll, buildLocation, Value.getProp]

/-- C7 (witness): the axis-swap arm at the concrete `{x:10, y:20}`. -/
theorem c7_location_swap_witness :
    cast (.vobj [("x", Value.vnum 10), ("y", Value.vnum 20)]) .location
      = .ok (.vlocation
          (Value.objGetD [("x", Value.vnum 10), ("y", Value.vnum 20)] "y")
          (Value.objGetD [("x", Value.vnum 10), ("y", Value.vnum 20)] "x")
          (Value.objGetD [("x", Value.vnum 10), ("y", Value.vnum 20)] "display")) :=
  c7_location_swap.1 [("x", Value.vnum 10), ("y", Value.vnum 20)] rfl rfl

/-! Claim C8: formatter precedence and missing-name tolerance. -/

/-- C8: a placeholder resolves from `functionParams` first when that
scope is supplied, falls back to `deviceParams` otherwise, and an
unresolved name completes without throwing, leaving the placeholder
token in place. -/
theorem c8_formatter_precedence :
    formatString xTemplate [("x", "device")] (some [("x", "call")]) = .ok "call" ∧
    formatString xTemplate [("x", "device")] none = .ok "device" ∧
    formatString yTemplate [("x", "device")] none = .ok yTemplate :=
  ⟨rfl, rfl, rfl⟩

/-! Claim C9: mixin argument access. -/

theorem find?_append {α : Type} (p : α → Bool) :
    ∀ l1 l2 : List α, (l1 ++ l2).find? p
      = match l1.find? p with
        | some x => some x
        | none => l2.find? p := by
  intro l1 l2
  induction l1 with
  | nil => rfl
  | cons a l ih =>
    cases hpa : p a with
    | true => simp [List.find?, hpa]
    | false => simp [List.find?, hpa, ih]

theorem lookupField_cons (k0 : String) (v0 : Value)
    (rest : List (String × Value)) (q : String) :
    Value.lookupField ((k0, v0) :: rest) q
      = if k0 = q then some v0 else Value.lookupField rest q := by
  by_cases h : k0 = q
  · simp [Value.lookupField, List.find?, h]
  · simp [Value.lookupField, List.find?, h]

theorem lookupField_setField (k : String) (v : Value) :
    ∀ (fields : List (String × Value)) (q : String),
      Value.lookupField (Value.setField fields k v) q
        = if q = k then some v else Value.lookupField fields q := by
  intro fields
  induction fields with
  | nil =>
    intro q
    simp only [Value.setField]
    rw [lookupField_cons]
    by_cases h : q = k
    · rw [if_pos h.symm, if_pos h]
    · rw [if_neg (fun hh : k = q => h hh.symm), if_neg h]
  | cons head rest ih =>
    intro q
    obtain ⟨k0, v0⟩ := head
    by_cases h0 : k0 = k
    · subst h0
      simp only [Value.setField]
      rw [if_pos trivial, lookupField_cons, lookupField_cons]
      by_cases h : q = k0
      · rw [if_pos h.symm, if_pos h]
      · rw [if_neg (fun hh : k0 = q => h hh.symm), if_neg h,
          if_neg (fun hh : k0 = q => h hh.symm)]
    · simp only [Value.setField]
      rw [if_neg h0, lookupField_cons, ih q]
      by_cases h : q = k
      · have hk0q : ¬ k0 = q := fun hh => h0 (hh.trans h)
        rw [if_pos h, if_pos h, if_neg hk0q]
      · rw [if_neg h, if_neg h, lookupField_cons]

theorem foldl_setField_lookup (a : String) :
    ∀ (ps : List InParam) (acc : List (String × Value)),
      Value.lookupField
        (ps.foldl (fun args p => Value.setField args p.name p.value) acc) a
        = match ps.reverse.find? (fun p => p.name = a) with
          | some p => some p.value
          | none => Value.lookupField acc a := by
  intro ps
  induction ps with
  | nil => intro acc; rfl
  | cons p rest ih =>
    intro acc
    simp only [List.foldl_cons, List.reverse_cons]
    rw [ih (Value.setField acc p.name p.value), find?_append]
    cases hf : rest.reverse.find? (fun q => q.name = a) with
    | some q => rfl
    | none =>
      rw [lookupField_setField]
      by_cases h : p.name = a
      · simp [List.find?, h]
      · have h2 : ¬ a = p.name := fun hh => h hh.symm
        simp [List.find?, h, h2]

theorem findMixinAux_no_match :
    ∀ (ps : List InParam) (a : String),
      (∀ q ∈ ps, q.name ≠ a) → findMixinAux ps a = .vundefined := by
  intro ps
  induction ps with
  | nil => intro a _; rfl
  | cons q rest ih =>
    intro a h
    simp only [findMixinAux]
    rw [if_neg (h q (List.mem_cons_self q rest))]
    exact ih a (fun r hr => h r (List.mem_cons_of_mem q hr))

/-- C9: `findMixinArg` returns the evaluated value of the first pair
matching the name in declaration order, and `undefined` when no pair
matches, while `getMixinArgs` builds the full mapping in which later
duplicate names overwrite earlier ones; on the block `[(a,1),(a,2)]`
the lookup returns `1` while the full map holds `2`. -/
theorem c9_mixin_access :
    (∀ (pre post : List InParam) (p : InParam) (m : Mixin) (a : String),
      m.in_params = pre ++ p :: post →
      (∀ q ∈ pre, q.name ≠ a) → p.name = a →
      findMixinArg m a = p.value) ∧
    (∀ (m : Mixin) (a : String),
      (∀ q ∈ m.in_params, q.name ≠ a) → findMixinArg m a = .vundefined) ∧
    (∀ (m : Mixin) (a : String),
      Value.lookupField (getMixinArgs m) a
        = match m.in_params.reverse.find? (fun p => p.name = a) with
          | some p => some p.value
          | none => none) ∧
    findMixinArg dupMixin "a" = .vnum 1 ∧
    getMixinArgs dupMixin = [("a", .vnum 2)] := by
  refine ⟨?_, fun m a h => findMixinAux_no_match m.in_params a h, ?_, rfl, rfl⟩
  · intro pre
    induction pre with
    | nil =>
      intro post p m a hm _ hp
      rw [findMixinArg, hm]
      simp [findMixinAux, hp]
    | cons q pre ih =>
      intro post p m a hm hpre hp
      rw [findMixinArg, hm]
      simp only [List.cons_append, findMixinAux]
      rw [if_neg (hpre q (List.mem_cons_self q pre))]
      have := ih post p ⟨pre ++ p :: post⟩ a rfl
        (fun r hr => hpre r (List.mem_cons_of_mem q hr)) hp
      simpa [findMixinArg] using this
  · intro m a
    have h := foldl_setField_lookup a m.in_params []
    rw [getMixinArgs]
    cases hf : m.in_params.reverse.find? (fun p => p.name = a) with
    | some q => rw [hf] at h; simpa [hf] using h
    | none => rw [hf] at h; simpa [hf, Value.lookupField, List.find?] using h

/-- C9 (witness): the first-match lookup on the duplicate block. -/
theorem c9_mixin_access_witness : findMixinArg dupMixin "a" = Value.vnum 1 :=
  c9_mixin_access.1 [] [⟨"a", .vnum 2⟩] ⟨"a", .vnum 1⟩ dupMixin "a" rfl
    (by simp) rfl

/-! Claim C10: falsy call-scoped values fall back to the device scope. -/

/-- C10: when `functionParams` is supplied, scope precedence is decided
by the truthiness of the call-scoped value — `functionParams[param] ||
deviceParams[param]` — so a name bound to the empty string in
`functionParams` resolves from `deviceParams` instead, as the concrete
`formatString` call shows. -/
theorem c10_falsy_fallback :
    (∀ (dp fp : List (String × String)) (p : String),
      lookupParam fp p = some "" →
      resolveParam dp (some fp) p = lookupParam dp p) ∧
    (∀ (dp fp : List (String × String)) (p : String),
      resolveParam dp (some fp) p
        = if truthyStr (lookupParam fp p) then lookupParam fp p
          else lookupParam dp p) ∧
    formatString xTemplate [("x", "device")] (some [("x", "")]) = .ok "device" := by
  refine ⟨?_, fun dp fp p => rfl, rfl⟩
  intro dp fp p h
  simp [resolveParam, h, truthyStr]

/-- C10 (witness): the empty-string call-scoped binding of `x` yields
the device-scoped value. -/
theorem c10_falsy_fallback_witness :
    resolveParam [("x", "device")] (some [("x", "")]) "x"
      = lookupParam [("x", "device")] "x" :=
  c10_falsy_fallback.1 [("x", "device")] [("x", "")] "x" rfl

end Thingpedia
